import Mathlib

/-!
Verification of the response/request normalization engine of the
llm-debug-proxy repository (src/src/formatters.ts).

The engine works on JavaScript values produced by `JSON.parse`, so the
embedding starts from a JSON value type and a small collection of
JavaScript evaluation helpers (property access, `[0]` indexing,
truthiness, string coercion, the `??` operator, `+` / `+=`).  A thrown
JavaScript exception (TypeError / SyntaxError) is modelled by
`Except String`: functions of the source that can let an exception
escape return `Except String α`.  `JSON.parse` itself is a platform
builtin, not repository code, so the formatters are parameterized by an
abstract `parse : String → Option Json` whose `none` result models a
thrown SyntaxError.  JSON numbers are modelled as integers (every input
in the claims is integral).
-/
/-- A JSON value, as produced by `JSON.parse`.  Object fields are kept in
insertion order (the order `JSON.stringify` serializes them in); parsed
objects are assumed to have distinct keys, as `JSON.parse` guarantees. -/
inductive Json where
  | null : Json
  | bool : Bool → Json
  | num : Int → Json
  | str : String → Json
  | arr : List Json → Json
  | obj : List (String × Json) → Json

/-- First-match lookup of a key in an object's field list. -/
def lookupKey {α : Type} : List (String × α) → String → Option α
  | [], _ => none
  | (k', v) :: rest, k => if k == k' then some v else lookupKey rest k

/-- Non-throwing part of JavaScript property access `v.k`: a field of an
object, `undefined` (`none`) on everything else (primitives have none of
the properties this code reads; `null` is handled by the throwing
wrapper `jsGetField`). -/
def jsGetF : Json → String → Option Json
  | Json.obj fields, k => lookupKey fields k
  | _, _ => none

/-- JavaScript property access `v.k`: throws a TypeError on `null`,
otherwise total. -/
def jsGetField (v : Json) (k : String) : Except String (Option Json) :=
  match v with
  | Json.null => Except.error ("TypeError: Cannot read properties of null (reading " ++ k ++ ")")
  | j => Except.ok (jsGetF j k)

/-- Property access on a possibly-`undefined` receiver (`v.k` where `v`
came from a previous access): throws on `undefined` and on `null`. -/
def jsGetFieldO (v : Option Json) (k : String) : Except String (Option Json) :=
  match v with
  | none => Except.error ("TypeError: Cannot read properties of undefined (reading " ++ k ++ ")")
  | some j => jsGetField j k

/-- Non-throwing part of JavaScript `v[0]` for a non-null `v`:
first element of an array, first character of a string, field "0" of an
object, `undefined` on numbers and booleans. -/
def jsIndexZeroOk : Json → Option Json
  | Json.str s =>
    match s.data with
    | [] => none
    | c :: _ => some (Json.str (String.mk [c]))
  | Json.arr [] => none
  | Json.arr (x :: _) => some x
  | Json.obj fields => lookupKey fields "0"
  | _ => none

/-- JavaScript `v[0]` where `v` may be `undefined`: throws a TypeError on
`undefined` and `null`, otherwise as `jsIndexZeroOk`. -/
def jsIndexZero : Option Json → Except String (Option Json)
  | none => Except.error "TypeError: Cannot read properties of undefined (reading 0)"
  | some Json.null => Except.error "TypeError: Cannot read properties of null (reading 0)"
  | some j => Except.ok (jsIndexZeroOk j)

/-- JavaScript truthiness of a possibly-`undefined` value. -/
def jsTruthy : Option Json → Bool
  | none => false
  | some Json.null => false
  | some (Json.bool b) => b
  | some (Json.num n) => !(n == 0)
  | some (Json.str s) => !(s == "")
  | some (Json.arr _) => true
  | some (Json.obj _) => true

/-- JavaScript `v === "lit"` for a possibly-`undefined` `v`: strict
equality against a string literal. -/
def jsStrictEqStr (v : Option Json) (lit : String) : Bool :=
  match v with
  | some (Json.str s) => s == lit
  | _ => false

mutual
/-- JavaScript `String(v)` coercion: `ToString` of a JSON value.
Arrays join their elements with "," (null elements become empty),
objects become "[object Object]". -/
def jsToString : Json → String
  | Json.null => "null"
  | Json.bool b => cond b "true" "false"
  | Json.num n => toString n
  | Json.str s => s
  | Json.arr l => jsArrToString l
  | Json.obj _ => "[object Object]"

/-- Model of `Array.prototype.toString`: elements coerced, joined with ",";
`null` elements contribute the empty string. -/
def jsArrToString : List Json → String
  | [] => ""
  | [Json.null] => ""
  | [x] => jsToString x
  | Json.null :: xs => "," ++ jsArrToString xs
  | x :: xs => jsToString x ++ "," ++ jsArrToString xs
end

/-- Result of `v ?? ''` followed by string coercion, i.e. the string a
JavaScript `s += v ?? ''` appends: empty for `undefined`/`null`,
`String(v)` otherwise. -/
def nullishToStr : Option Json → String
  | none => ""
  | some Json.null => ""
  | some j => jsToString j

/-- JavaScript `s += v ?? ''` on a string accumulator. -/
def appendCoerced (s : String) (v : Option Json) : String :=
  s ++ nullishToStr v

/-- Result of `v ?? ''` before addition: `undefined`/`null` are replaced
by the empty string, everything else kept. -/
def unNullish : Option Json → Json
  | none => Json.str ""
  | some Json.null => Json.str ""
  | some j => j

/-- A JavaScript primitive that the accumulator field `index` can hold:
the field starts as the number 0 and `+=` can keep it a number or turn
it into a string. -/
inductive JsAtom where
  | num : Int → JsAtom
  | str : String → JsAtom
deriving DecidableEq

/-- JavaScript `a + v` where `a` is a number or a string accumulator:
number + number/boolean/null stays numeric, anything else falls back to
string concatenation of the coercions. -/
def atomPlus (a : JsAtom) (v : Json) : JsAtom :=
  match a, v with
  | JsAtom.num n, Json.num m => JsAtom.num (n + m)
  | JsAtom.num n, Json.bool b => JsAtom.num (n + cond b 1 0)
  | JsAtom.num n, Json.null => JsAtom.num n
  | JsAtom.num n, v => JsAtom.str (toString n ++ jsToString v)
  | JsAtom.str s, v => JsAtom.str (s ++ jsToString v)

/-- A `JsAtom` back as a JSON value (for serializing the merged
message). -/
def atomToJson : JsAtom → Json
  | JsAtom.num n => Json.num n
  | JsAtom.str s => Json.str s

/-- Digit-string to number, `none` when empty or not all digits. -/
def charsToNat? (l : List Char) : Option Nat :=
  match l with
  | [] => none
  | _ => if l.all Char.isDigit
         then some (l.foldl (fun a c => a * 10 + (c.toNat - 48)) 0)
         else none

/-- A string that is the canonical decimal numeral of a natural number
(JavaScript treats exactly those property keys as array indexes). -/
def natCanon (s : String) : Option Nat :=
  match charsToNat? s.data with
  | some n => if Nat.repr n == s then some n else none
  | none => none

/-- The array key a JavaScript value denotes when used as `arr[v]`:
a non-negative integer is an array index (left), everything else is
coerced with `String()` to an ordinary property key (right).
(Fractional numbers and indexes ≥ 2^32-1 are out of the integer model's
scope; no claim involves them.) -/
def jsKeyOf : Option Json → Nat ⊕ String
  | none => Sum.inr "undefined"
  | some Json.null => Sum.inr "null"
  | some (Json.bool b) => Sum.inr (cond b "true" "false")
  | some (Json.num (Int.ofNat n)) => Sum.inl n
  | some (Json.num (Int.negSucc n)) => Sum.inr (toString (Int.negSucc n))
  | some (Json.str s) =>
    match natCanon s with
    | some n => Sum.inl n
    | none => Sum.inr s
  | some (Json.arr l) => Sum.inr (jsToString (Json.arr l))
  | some (Json.obj _) => Sum.inr "[object Object]"

/-!
The chunk merger (`mergeOpenAIChunks` in src/src/formatters.ts).

The accumulator of the `reduce` is `{ content: '', tool_calls: [] }`.
`tool_calls` is a JavaScript array written only through
`prev.tool_calls[toolCall.index] = ...`: a non-negative integer index
extends the array with holes (modelled by a `List (Option ToolAcc)`),
any other index value becomes an ordinary string-keyed property on the
array object (modelled by the extra `props` list; such properties are
invisible to `JSON.stringify`).
-/
/-- One tool-call accumulator slot, as created by the merger:
`{ function: { name: '', arguments: '' }, index: 0, id: '' }`. -/
structure ToolAcc where
  name : String
  arguments : String
  index : JsAtom
  id : String
deriving DecidableEq

/-- The freshly created slot. -/
def freshAcc : ToolAcc :=
  { name := "", arguments := "", index := JsAtom.num 0, id := "" }

/-- The merger's accumulator / result
`{ content: string, tool_calls: array }`. -/
structure MergedMessage where
  content : String
  tool_calls : List (Option ToolAcc)
  props : List (String × ToolAcc)
deriving DecidableEq

/-- The empty message the `reduce` starts from. -/
def emptyMessage : MergedMessage :=
  { content := "", tool_calls := [], props := [] }

/-- Read `l[n]` of a JavaScript array with holes. -/
def getAt : List (Option ToolAcc) → Nat → Option ToolAcc
  | [], _ => none
  | x :: _, 0 => x
  | _ :: rest, Nat.succ n => getAt rest n

/-- Write `l[n] = a` on a JavaScript array: writing past the end extends
the array with holes (`undefined` entries). -/
def writeAt : List (Option ToolAcc) → Nat → ToolAcc → List (Option ToolAcc)
  | [], 0, a => [some a]
  | [], Nat.succ n, a => none :: writeAt [] n a
  | _ :: rest, 0, a => some a :: rest
  | x :: rest, Nat.succ n, a => x :: writeAt rest n a

/-- Write a string-keyed property (replace or append). -/
def writeProp : List (String × ToolAcc) → String → ToolAcc → List (String × ToolAcc)
  | [], k, a => [(k, a)]
  | (k', a') :: rest, k, a =>
    if k == k' then (k, a) :: rest else (k', a') :: writeProp rest k a

/-- Read `prev.tool_calls[key]`. -/
def getSlot (m : MergedMessage) : Nat ⊕ String → Option ToolAcc
  | Sum.inl n => getAt m.tool_calls n
  | Sum.inr s => lookupKey m.props s

/-- Write `prev.tool_calls[key] = a`. -/
def writeSlot (m : MergedMessage) (k : Nat ⊕ String) (a : ToolAcc) : MergedMessage :=
  match k with
  | Sum.inl n => { m with tool_calls := writeAt m.tool_calls n a }
  | Sum.inr s => { m with props := writeProp m.props s a }

/-- The body of `delta.tool_calls?.forEach((toolCall) => ...)` for one
`toolCall` value.  The source reads `toolCall.index`, lazily creates the
slot (a created-then-updated slot is the same as updating a fresh slot,
so the in-place creation is modelled as read-or-fresh followed by one
write), then runs
`prevToolCall.function.name += toolCall.function.name ?? ''` (which
throws when `toolCall.function` is absent or null),
the same for `arguments`, `prevToolCall.index += toolCall.index ?? ''`
and `prevToolCall.id += toolCall.id ?? ''`. -/
def applyToolCall (m : MergedMessage) (tc : Json) : Except String MergedMessage :=
  match jsGetField tc "index" with
  | Except.error e => Except.error e
  | Except.ok idxVal =>
    let k := jsKeyOf idxVal
    let acc := (getSlot m k).getD freshAcc
    match jsGetField tc "function" with
    | Except.error e => Except.error e
    | Except.ok fnVal =>
      match jsGetFieldO fnVal "name" with
      | Except.error e => Except.error e
      | Except.ok nameVal =>
        match jsGetFieldO fnVal "arguments" with
        | Except.error e => Except.error e
        | Except.ok argVal =>
          match jsGetField tc "id" with
          | Except.error e => Except.error e
          | Except.ok idVal =>
            Except.ok (writeSlot m k
              { name := appendCoerced acc.name nameVal
                arguments := appendCoerced acc.arguments argVal
                index := atomPlus acc.index (unNullish idxVal)
                id := appendCoerced acc.id idVal })

/-- Model of `delta.tool_calls?.forEach(...)` over the whole array, left to
right, first thrown exception wins. -/
def applyToolCalls (m : MergedMessage) : List Json → Except String MergedMessage
  | [] => Except.ok m
  | tc :: rest =>
    match applyToolCall m tc with
    | Except.error e => Except.error e
    | Except.ok m' => applyToolCalls m' rest

/-- Model of `choice0?.delta` for the possibly-undefined `choices[0]`:
optional chaining yields `undefined` on `undefined`/`null`, plain
access otherwise. -/
def optChain (v : Option Json) (k : String) : Option Json :=
  match v with
  | none => none
  | some Json.null => none
  | some j => jsGetF j k

/-- Model of `x ?? \x7b\x7d`: the empty object for `undefined` and `null`. -/
def orEmptyObj : Option Json → Json
  | none => Json.obj []
  | some Json.null => Json.obj []
  | some j => j

/-- One step of the merger's `reduce`:
`const delta = chunk.choices[0]?.delta ?? {};` (the unguarded
`chunk.choices[0]` throws when `choices` is absent or null — e.g. on a
chunk that has no `choices` at all), then
`prev.content += delta?.content ?? ''`, then the `tool_calls` forEach
(skipped for absent/null `tool_calls`, a TypeError for any other
non-array value). -/
def mergeStep (m : MergedMessage) (chunk : Json) : Except String MergedMessage :=
  match jsGetField chunk "choices" with
  | Except.error e => Except.error e
  | Except.ok choicesVal =>
    match jsIndexZero choicesVal with
    | Except.error e => Except.error e
    | Except.ok choice0 =>
      let delta := orEmptyObj (optChain choice0 "delta")
      let m1 := { m with content := appendCoerced m.content (jsGetF delta "content") }
      match jsGetF delta "tool_calls" with
      | none => Except.ok m1
      | some Json.null => Except.ok m1
      | some (Json.arr tcs) => applyToolCalls m1 tcs
      | some _ => Except.error "TypeError: delta.tool_calls.forEach is not a function"

/-- The `reduce` itself, threading the accumulator through the chunk
list. -/
def mergeChunksFrom (m : MergedMessage) : List Json → Except String MergedMessage
  | [] => Except.ok m
  | c :: cs =>
    match mergeStep m c with
    | Except.error e => Except.error e
    | Except.ok m' => mergeChunksFrom m' cs

/-- Model of `mergeOpenAIChunks`: reduce the parsed chunks onto
`{ content: '', tool_calls: [] }`. -/
def mergeOpenAIChunks (chunks : List Json) : Except String MergedMessage :=
  mergeChunksFrom emptyMessage chunks

/-- One slot of the merged message as `JSON.stringify` sees it: a hole
serializes as `null`; a slot serializes with its creation-order keys
`function` (`name`, `arguments`), `index`, `id`. -/
def slotToJson : Option ToolAcc → Json
  | none => Json.null
  | some a =>
    Json.obj [("function", Json.obj [("name", Json.str a.name), ("arguments", Json.str a.arguments)]),
              ("index", atomToJson a.index),
              ("id", Json.str a.id)]

/-- The merged message as `JSON.stringify` sees it: keys in creation
order `content`, `tool_calls`; string-keyed array properties are not
serialized. -/
def mergedToJson (m : MergedMessage) : Json :=
  Json.obj [("content", Json.str m.content),
            ("tool_calls", Json.arr (m.tool_calls.map slotToJson))]

/-!
`JSON.stringify(value, null, 2)` — the pretty printer both formatters
feed their parsed values to.  (A platform builtin like `JSON.parse`,
modelled concretely; string escaping covers the JSON two-character
escapes, enough for every value the claims touch.)
-/
/-- Indentation: `n` spaces. -/
def indentStr (n : Nat) : String :=
  String.mk (List.replicate n ' ')

/-- JSON escape of one character. -/
def escapeChar (c : Char) : String :=
  if c == '"' then "\\\""
  else if c == '\\' then "\\\\"
  else if c == '\n' then "\\n"
  else if c == '\r' then "\\r"
  else if c == '\t' then "\\t"
  else String.mk [c]

/-- JSON string literal (quoted, escaped). -/
def quoteStr (s : String) : String :=
  "\"" ++ (s.data.map escapeChar).foldl (fun a b => a ++ b) "" ++ "\""

mutual
/-- Model of `JSON.stringify` with 2-space indentation, at an enclosing
indentation depth. -/
def stringifyAt : Nat → Json → String
  | _, Json.null => "null"
  | _, Json.bool b => cond b "true" "false"
  | _, Json.num n => toString n
  | _, Json.str s => quoteStr s
  | _, Json.arr [] => "[]"
  | ind, Json.arr (x :: xs) =>
    "[\n" ++ stringifyArr (ind + 2) (x :: xs) ++ "\n" ++ indentStr ind ++ "]"
  | _, Json.obj [] => "\x7b\x7d"
  | ind, Json.obj (f :: fs) =>
    "\x7b\n" ++ stringifyObj (ind + 2) (f :: fs) ++ "\n" ++ indentStr ind ++ "\x7d"

/-- Array items, one per line, comma separated. -/
def stringifyArr : Nat → List Json → String
  | _, [] => ""
  | ind, [x] => indentStr ind ++ stringifyAt ind x
  | ind, x :: xs =>
    indentStr ind ++ stringifyAt ind x ++ ",\n" ++ stringifyArr ind xs

/-- Object fields, one per line, comma separated. -/
def stringifyObj : Nat → List (String × Json) → String
  | _, [] => ""
  | ind, [(k, v)] => indentStr ind ++ quoteStr k ++ ": " ++ stringifyAt ind v
  | ind, (k, v) :: fs =>
    indentStr ind ++ quoteStr k ++ ": " ++ stringifyAt ind v ++ ",\n" ++ stringifyObj ind fs
end

/-- Model of `JSON.stringify(j, null, 2)`. -/
def stringify (j : Json) : String :=
  stringifyAt 0 j

/-!
String plumbing used by `formatResponseBody`:
`split(/\r?\n/)`, `String.prototype.trim`, `startsWith`, `slice(5)`.
Implemented over character lists so every claim instance evaluates
inside the kernel.
-/
/-- Whitespace for `String.prototype.trim` (the ASCII part; the claims
use spaces and tabs only). -/
def isJsWhitespace (c : Char) : Bool :=
  c == ' ' || c == '\t' || c == '\n' || c == '\r' || c == '\x0b' || c == '\x0c'

/-- Model of `String.prototype.trim`. -/
def jsTrim (s : String) : String :=
  String.mk (((s.data.dropWhile isJsWhitespace).reverse.dropWhile isJsWhitespace).reverse)

/-- Split on `/\r?\n/`: cut at every `\n`, discarding one `\r`
immediately before it; a lone `\r` is not a separator.  `acc` holds the
current line reversed. -/
def splitLinesAux : List Char → List Char → List String
  | acc, [] => [String.mk acc.reverse]
  | acc, '\n' :: rest =>
    (match acc with
     | '\r' :: acc' => String.mk acc'.reverse
     | _ => String.mk acc.reverse) :: splitLinesAux [] rest
  | acc, c :: rest => splitLinesAux (c :: acc) rest

/-- Model of `s.split(/\r?\n/)`. -/
def jsSplitLines (s : String) : List String :=
  splitLinesAux [] s.data

/-- Character-list prefix test. -/
def startsWithCh : List Char → List Char → Bool
  | [], _ => true
  | _ :: _, [] => false
  | p :: ps, c :: cs => p == c && startsWithCh ps cs

/-- Model of `s.startsWith(p)`. -/
def strStartsWith (s p : String) : Bool :=
  startsWithCh p.data s.data

/-- Model of `s.slice(n)`. -/
def strDrop (s : String) (n : Nat) : String :=
  String.mk (s.data.drop n)

/-!
The response formatter (`formatResponseBody` in src/src/formatters.ts).
The `express.Response` argument is only read through
`res.getHeader("content-type")` and `res.getHeader("transfer-encoding")`,
so it is modelled by those two declared headers; the CLI options by
their two fields.
-/
/-- The declared response metadata `formatResponseBody` consults. -/
structure ResMeta where
  contentType : Option String
  transferEncoding : Option String

/-- The `--tools` rendering mode (`none` / `name` / `all`). -/
inductive ToolsOpt where
  | none : ToolsOpt
  | name : ToolsOpt
  | all : ToolsOpt
deriving DecidableEq

/-- The CLI options the formatters read (`cli.ts`: `raw` defaults to
false, `tools` to `name`). -/
structure CliOptions where
  raw : Bool
  tools : ToolsOpt

/-- Model of the streaming test
`res.getHeader("content-type") === "text/event-stream" ||
res.getHeader("transfer-encoding") === "chunked"`. -/
def isStreamedResponse (res : ResMeta) : Bool :=
  (res.contentType == some "text/event-stream") || (res.transferEncoding == some "chunked")

/-- Model of `allResponseChunks.split(/\r?\n/).map(line => line.trim())`. -/
def splitTrimmedLines (s : String) : List String :=
  (jsSplitLines s).map jsTrim

/-- Model of `lines.some(line => line.startsWith("data:"))`. -/
def hasDataLine (lines : List String) : Bool :=
  lines.any (fun l => strStartsWith l "data:")

/-- One mapped element of the non-SSE ("plain chunked") branch:
`try { return JSON.parse(line).message.content } catch { return line }`
followed by the element conversion of `Array.prototype.join` with empty separator.  The
`catch` fires when the parse fails or when `.message` is `undefined` or
`null` (so that `.content` throws); a present `message` whose `content`
is absent yields `undefined`, which `join` renders as the empty
string. -/
def plainFragment (parse : String → Option Json) (line : String) : String :=
  match parse line with
  | none => line
  | some j =>
    match j with
    | Json.null => line
    | _ =>
      match jsGetF j "message" with
      | none => line
      | some Json.null => line
      | some mv =>
        match jsGetF mv "content" with
        | none => ""
        | some Json.null => ""
        | some cv => jsToString cv

/-- Model of the frame filter keeping lines that start with `data:` and
differ from the sentinel `data: [DONE]`. -/
def keptDataLines (lines : List String) : List String :=
  lines.filter (fun l => strStartsWith l "data:" && !(l == "data: [DONE]"))

/-- Model of `.map(line => JSON.parse(line.slice(5).trim()))` over the kept data
lines; a parse failure is an uncaught SyntaxError. -/
def parseFrames (parse : String → Option Json) : List String → Except String (List Json)
  | [] => Except.ok []
  | l :: rest =>
    match parse (jsTrim (strDrop l 5)) with
    | none => Except.error "SyntaxError: Unexpected token, JSON.parse failed on a data: frame"
    | some j =>
      match parseFrames parse rest with
      | Except.error e => Except.error e
      | Except.ok js => Except.ok (j :: js)

/-- Model of the any-match classifier
`parsedSSEChunks.some(chunk => chunk.object === "chat.completion.chunk" && chunk.choices)`:
short-circuiting, and the property accesses throw on a `null` chunk. -/
def someOpenAIChunk : List Json → Except String Bool
  | [] => Except.ok false
  | c :: cs =>
    match jsGetField c "object" with
    | Except.error e => Except.error e
    | Except.ok objVal =>
      if jsStrictEqStr objVal "chat.completion.chunk" then
        match jsGetField c "choices" with
        | Except.error e => Except.error e
        | Except.ok chVal =>
          if jsTruthy chVal then Except.ok true else someOpenAIChunk cs
      else someOpenAIChunk cs

/-- Model of `formatResponseBody`.
Returns `Except.ok` with the display string, `Except.error` when the
source lets an exception escape (uncaught `JSON.parse` SyntaxError on an
SSE data frame, or a TypeError out of the classifier / merger). -/
def formatResponseBody (parse : String → Option Json) (res : ResMeta)
    (allResponseChunks : String) (cliOptions : CliOptions) : Except String String :=
  if cliOptions.raw then Except.ok allResponseChunks
  else
    if !(isStreamedResponse res) then
      match parse allResponseChunks with
      | some parsed => Except.ok (stringify parsed)
      | none => Except.ok allResponseChunks
    else
      let lines := splitTrimmedLines allResponseChunks
      if !(hasDataLine lines) then
        Except.ok (String.join (lines.map (plainFragment parse)))
      else
        match parseFrames parse (keptDataLines lines) with
        | Except.error e => Except.error e
        | Except.ok parsedSSEChunks =>
          match someOpenAIChunk parsedSSEChunks with
          | Except.error e => Except.error e
          | Except.ok isOpenAIChunk =>
            if !isOpenAIChunk then Except.ok (stringify (Json.arr parsedSSEChunks))
            else
              match mergeOpenAIChunks parsedSSEChunks with
              | Except.error e => Except.error e
              | Except.ok mergedMessage => Except.ok (stringify (mergedToJson mergedMessage))

/-!
The request formatter (`formatRequestBody` in src/src/formatters.ts).
Everything runs inside one `try { ... } catch (e) { return requestData }`,
so a parse failure or a TypeError in the tools handling falls back to
the raw buffer.
-/
/-- Model of `lodash.omit(parsed, "tools")`: drop the key from an object; lodash
coerces a non-object to a plain object of its own enumerable properties
(array / string indexes), which is empty for the other primitives. -/
def omitTools : Json → Json
  | Json.obj fields => Json.obj (fields.filter (fun p => !(p.1 == "tools")))
  | Json.arr l => Json.obj (l.enum.map (fun p => (Nat.repr p.1, p.2)))
  | Json.str s => Json.obj (s.data.enum.map (fun p => (Nat.repr p.1, Json.str (String.mk [p.2]))))
  | _ => Json.obj []

/-- Model of the mapped arrow `(tool) => tool.function.name`: throws when `tool` is null or its
`function` is absent/null; an absent `name` yields `undefined`, which
the produced array serializes as `null`. -/
def toolFnName (tool : Json) : Except String Json :=
  match jsGetField tool "function" with
  | Except.error e => Except.error e
  | Except.ok fnVal =>
    match jsGetFieldO fnVal "name" with
    | Except.error e => Except.error e
    | Except.ok nameVal =>
      Except.ok (match nameVal with
                 | none => Json.null
                 | some v => v)

/-- Model of `tools.map(toolFnName)`, left to right, first throw wins. -/
def mapToolNames : List Json → Except String (List Json)
  | [] => Except.ok []
  | t :: ts =>
    match toolFnName t with
    | Except.error e => Except.error e
    | Except.ok n =>
      match mapToolNames ts with
      | Except.error e => Except.error e
      | Except.ok ns => Except.ok (n :: ns)

/-- Assignment `obj.k = v`: replaces the value at the key's existing
position, appends when absent; no effect on non-objects (unreachable
here). -/
def setFieldList : List (String × Json) → String → Json → List (String × Json)
  | [], k, v => [(k, v)]
  | (k', v') :: rest, k, v =>
    if k == k' then (k, v) :: rest else (k', v') :: setFieldList rest k v

/-- Model of the assignment `parsed.tools = ...` on the parsed value. -/
def setField (j : Json) (k : String) (v : Json) : Json :=
  match j with
  | Json.obj fields => Json.obj (setFieldList fields k v)
  | other => other

/-- Model of `parsed.tools = parsed.tools.map((tool) => tool.function.name)`:
reading `tools` throws on a null `parsed`; `.map` throws unless the
value is an array. -/
def mapToolsToNames (parsed : Json) : Except String Json :=
  match jsGetField parsed "tools" with
  | Except.error e => Except.error e
  | Except.ok toolsVal =>
    match toolsVal with
    | some (Json.arr tools) =>
      match mapToolNames tools with
      | Except.error e => Except.error e
      | Except.ok names => Except.ok (setField parsed "tools" (Json.arr names))
    | _ => Except.error "TypeError: parsed.tools.map is not a function"

/-- Model of `formatRequestBody`: always returns a
string — the whole body is wrapped in `try ... catch`, so a parse
failure or a tools TypeError returns the raw buffer. -/
def formatRequestBody (parse : String → Option Json) (requestData : String)
    (cliOptions : CliOptions) : String :=
  match parse requestData with
  | none => requestData
  | some parsed =>
    match cliOptions.tools with
    | ToolsOpt.none => stringify (omitTools parsed)
    | ToolsOpt.name =>
      (match mapToolsToNames parsed with
       | Except.ok parsed' => stringify parsed'
       | Except.error _ => requestData)
    | ToolsOpt.all => stringify parsed

/-!
A concrete `JSON.parse` instance for the claims' concrete inputs: a
finite table mapping the exact strings the witnesses feed in to their
parsed values; everything else fails to parse.  (The real `JSON.parse`
agrees with this table on these strings.)
-/
/-- The chunk `{"object": "chat.completion.chunk", "choices": [{"delta": {"content": "Hello"}}]}`. -/
def chunkHelloJson : Json :=
  Json.obj [("object", Json.str "chat.completion.chunk"),
            ("choices", Json.arr [Json.obj [("delta", Json.obj [("content", Json.str "Hello")])]])]

/-- The tools array `[{"type": "function", "function": {"name": "getWeather"}}]`. -/
def reqTools : List Json :=
  [Json.obj [("type", Json.str "function"),
             ("function", Json.obj [("name", Json.str "getWeather")])]]

/-- The fields of the request body below. -/
def reqFields : List (String × Json) :=
  [("model", Json.str "gpt"), ("tools", Json.arr reqTools)]

/-- The request body `{"model": "gpt", "tools": [{"type": "function", "function": {"name": "getWeather"}}]}`. -/
def reqBodyJson : Json := Json.obj reqFields

/-- Table-based `JSON.parse` for the concrete inputs used below. -/
def exampleParse : String → Option Json := fun s =>
  if s == "\x7b\"message\": \x7b\"content\": \"Hello\"\x7d\x7d" then
    some (Json.obj [("message", Json.obj [("content", Json.str "Hello")])])
  else if s == "\x7b\"message\": \x7b\x7d\x7d" then
    some (Json.obj [("message", Json.obj [])])
  else if s == "\x7b\"object\": \"chat.completion.chunk\", \"choices\": [\x7b\"delta\": \x7b\"content\": \"Hello\"\x7d\x7d]\x7d" then
    some chunkHelloJson
  else if s == "\x7b\x7d" then some (Json.obj [])
  else if s == "\x7b\"model\": \"gpt\", \"tools\": [\x7b\"type\": \"function\", \"function\": \x7b\"name\": \"getWeather\"\x7d\x7d]\x7d" then
    some reqBodyJson
  else none

/-!
Structured OpenAI chunks.  The claims about the merger's reference
behaviour quantify over chunks of the OpenAI `ChatCompletionChunk`
shape: an object with a `choices` array of choices carrying an optional
`delta` with optional string `content` and optional `tool_calls`, each
tool call carrying a natural `index`, a `function` object with optional
string `name`/`arguments`, and an optional string `id`.  `toJson` embeds
them into the JSON values the merger actually receives.
-/
/-- A structured tool-call delta fragment. -/
structure SToolCall where
  index : Nat
  name : Option String
  arguments : Option String
  id : Option String
deriving DecidableEq

/-- A structured delta. -/
structure SDelta where
  content : Option String
  tool_calls : Option (List SToolCall)
deriving DecidableEq

/-- A structured choice. -/
structure SChoice where
  delta : Option SDelta
deriving DecidableEq

/-- A structured chunk. -/
structure SChunk where
  choices : List SChoice
deriving DecidableEq

/-- An optional field of an object under construction. -/
def optField (k : String) : Option Json → List (String × Json)
  | none => []
  | some v => [(k, v)]

/-- The JSON value of a structured tool call. -/
def SToolCall.toJson (t : SToolCall) : Json :=
  Json.obj ([("index", Json.num (Int.ofNat t.index))]
    ++ [("function", Json.obj (optField "name" (t.name.map Json.str)
                               ++ optField "arguments" (t.arguments.map Json.str)))]
    ++ optField "id" (t.id.map Json.str))

/-- The JSON value of a structured delta. -/
def SDelta.toJson (d : SDelta) : Json :=
  Json.obj (optField "content" (d.content.map Json.str)
    ++ optField "tool_calls" ((d.tool_calls.map (fun l => Json.arr (l.map SToolCall.toJson)))))

/-- The JSON value of a structured choice. -/
def SChoice.toJson (c : SChoice) : Json :=
  Json.obj (optField "delta" (c.delta.map SDelta.toJson))

/-- The JSON value of a structured chunk. -/
def SChunk.toJson (c : SChunk) : Json :=
  Json.obj [("object", Json.str "chat.completion.chunk"),
            ("choices", Json.arr (c.choices.map SChoice.toJson))]

/-- The empty delta (`?? {}` substitute). -/
def SDelta.empty : SDelta := ⟨none, none⟩

/-- The delta the merger extracts from a chunk:
`chunk.choices[0]?.delta ?? {}`. -/
def SChunk.delta0 (c : SChunk) : SDelta :=
  match c.choices with
  | [] => SDelta.empty
  | ch :: _ => ch.delta.getD SDelta.empty

/-- The pure effect of one tool-call fragment on an accumulator slot. -/
def updAcc (a : ToolAcc) (t : SToolCall) : ToolAcc :=
  { name := a.name ++ t.name.getD ""
    arguments := a.arguments ++ t.arguments.getD ""
    index := atomPlus a.index (Json.num (Int.ofNat t.index))
    id := a.id ++ t.id.getD "" }

/-- The merger's forEach body on a structured tool call (no exception
possible: `index` is a natural, `function` is an object). -/
def applyToolCallS (m : MergedMessage) (t : SToolCall) : MergedMessage :=
  writeSlot m (Sum.inl t.index) (updAcc ((getSlot m (Sum.inl t.index)).getD freshAcc) t)

/-- The merger's step on a structured chunk. -/
def stepS (m : MergedMessage) (c : SChunk) : MergedMessage :=
  ((c.delta0).tool_calls.getD []).foldl applyToolCallS
    { m with content := m.content ++ (c.delta0).content.getD "" }

/-- The merge of a structured chunk list. -/
def mergeS (chunks : List SChunk) : MergedMessage :=
  chunks.foldl stepS emptyMessage

/-!
Reference reduction (the spec's description of the merge), written
independently of the accumulator machinery: in-order concatenations and
sums over the per-index fragment subsequences.
-/
/-- Concatenation of a list of strings, in order, no separator. -/
def strConcat : List String → String
  | [] => ""
  | s :: rest => s ++ strConcat rest

/-- Sum of a list of integers. -/
def intSum : List Int → Int
  | [] => 0
  | x :: rest => x + intSum rest

/-- Content fragment `delta.content ?? ""` of one chunk. -/
def refContent (c : SChunk) : String :=
  (c.delta0).content.getD ""

/-- The tool-call fragments of one chunk, in order. -/
def refTCs (c : SChunk) : List SToolCall :=
  (c.delta0).tool_calls.getD []

/-- All tool-call fragments of a chunk sequence, in arrival order. -/
def allTCs (chunks : List SChunk) : List SToolCall :=
  (chunks.map refTCs).flatten

/-- The fragments addressed to slot `i`, in arrival order. -/
def fragsAt (chunks : List SChunk) (i : Nat) : List SToolCall :=
  (allTCs chunks).filter (fun t => t.index == i)

/-- The slot of the merged message at array position `i`. -/
def slotAt (m : MergedMessage) (i : Nat) : Option ToolAcc :=
  getAt m.tool_calls i

/-- The accumulator slot the reference reduction predicts for a
non-empty fragment list addressed to one slot. -/
def refSlot (frags : List SToolCall) : ToolAcc :=
  { name := strConcat (frags.map (fun t => t.name.getD ""))
    arguments := strConcat (frags.map (fun t => t.arguments.getD ""))
    index := JsAtom.num (intSum (frags.map (fun t => Int.ofNat t.index)))
    id := strConcat (frags.map (fun t => t.id.getD "")) }

/-!
The no-throw domain of the merger, for the amended totality claim: a
chunk is safe when its `choices` value is present and non-null and the
extracted delta's `tool_calls` is absent, null, or an array of tool
calls each bearing a present non-null `function`.
-/
/-- Safety of one `toolCall` of the forEach. -/
def safeToolCall (tc : Json) : Bool :=
  match jsGetF tc "function" with
  | some Json.null => false
  | some _ => true
  | none => false

/-- Safety of the extracted delta. -/
def safeDelta (d : Json) : Bool :=
  match jsGetF d "tool_calls" with
  | none => true
  | some Json.null => true
  | some (Json.arr tcs) => tcs.all safeToolCall
  | some _ => false

/-- The delta a non-null `choices` value leads to. -/
def deltaView (choicesVal : Json) : Json :=
  orEmptyObj (optChain (jsIndexZeroOk choicesVal) "delta")

/-- Safety of one chunk: `mergeStep` cannot throw on it. -/
def safeChunk (c : Json) : Bool :=
  match jsGetF c "choices" with
  | none => false
  | some Json.null => false
  | some v => safeDelta (deltaView v)

/-!
The per-slot view of the structured fold: each slot evolves
independently, by folding `updAcc` over the fragments addressed to
it (lazily seeded with `freshAcc`).
-/
/-- Fold the fragments of one slot onto its (possibly absent)
accumulator. -/
def accFold (s : Option ToolAcc) (ts : List SToolCall) : Option ToolAcc :=
  ts.foldl (fun s t => some (updAcc (s.getD freshAcc) t)) s

/-- Value `foldMaxL n l`: the array length after writing at each index of `l`
starting from length `n`. -/
def foldMaxL (n : Nat) (l : List Nat) : Nat :=
  l.foldl (fun n i => max n (i + 1)) n

/-- The largest element of a list of naturals (0 when empty). -/
def maxNat : List Nat → Nat
  | [] => 0
  | x :: rest => max x (maxNat rest)

/-- Whether an `Except` computation returned normally (the JavaScript
call completed without a thrown exception). -/
def exceptOk {α : Type} : Except String α → Bool
  | Except.ok _ => true
  | Except.error _ => false

/-!
The remaining concrete inputs the claims are instantiated at.
-/
/-- Metadata declaring `content-type: text/event-stream`. -/
def sseMeta : ResMeta := { contentType := some "text/event-stream", transferEncoding := none }

/-- Metadata declaring `transfer-encoding: chunked`. -/
def chunkedMeta : ResMeta := { contentType := none, transferEncoding := some "chunked" }

/-- The plain-chunked example buffer of the spec,
`line1\nline2\n{"message": {"content": "Hello"}}`. -/
def plainBuf : String := "line1\nline2\n\x7b\"message\": \x7b\"content\": \"Hello\"\x7d\x7d"

/-- A single-line chunked buffer whose JSON has a `message` but no
`content`. -/
def msgEmptyStr : String := "\x7b\"message\": \x7b\x7d\x7d"

/-- The spec's SSE example buffer (one OpenAI chunk frame). -/
def sseHelloBuf : String :=
  "data: \x7b\"object\": \"chat.completion.chunk\", \"choices\": [\x7b\"delta\": \x7b\"content\": \"Hello\"\x7d\x7d]\x7d"

/-- An SSE buffer whose first frame is a well-formed OpenAI chunk and
whose second frame is the empty object (no `choices`). -/
def sseMixedBuf : String :=
  "data: \x7b\"object\": \"chat.completion.chunk\", \"choices\": [\x7b\"delta\": \x7b\"content\": \"Hello\"\x7d\x7d]\x7d\ndata: \x7b\x7d"

/-- A tool-call fragment addressed to slot 1. -/
def cToolA : SToolCall := { index := 1, name := some "get", arguments := some "ar", id := some "id" }

/-- A second fragment addressed to slot 1. -/
def cToolB : SToolCall := { index := 1, name := some "Weather", arguments := some "gs", id := some "1" }

/-- A structured chunk carrying content "Hel" and fragment `cToolA`. -/
def cChunkA : SChunk :=
  { choices := [{ delta := some { content := some "Hel", tool_calls := some [cToolA] } }] }

/-- A structured chunk carrying content "lo" and fragment `cToolB`. -/
def cChunkB : SChunk :=
  { choices := [{ delta := some { content := some "lo", tool_calls := some [cToolB] } }] }

/-!
Helper lemmas: strings, array writes, slots.
-/
theorem strAppendEmpty (s : String) : s ++ "" = s := by
  cases s with
  | mk l => show String.mk (l ++ []) = String.mk l
            rw [List.append_nil]

theorem strEmptyAppend (s : String) : "" ++ s = s := by
  cases s with
  | mk l => rfl

theorem strAppendAssoc (a b c : String) : (a ++ b) ++ c = a ++ (b ++ c) := by
  cases a with
  | mk la =>
    cases b with
    | mk lb =>
      cases c with
      | mk lc => show String.mk ((la ++ lb) ++ lc) = String.mk (la ++ (lb ++ lc))
                 rw [List.append_assoc]

theorem getAt_writeAt_self (l : List (Option ToolAcc)) (n : Nat) (a : ToolAcc) :
    getAt (writeAt l n a) n = some a := by
  induction l generalizing n with
  | nil =>
    induction n with
    | zero => rfl
    | succ k ih => simpa [writeAt, getAt] using ih
  | cons x rest ih =>
    cases n with
    | zero => rfl
    | succ k => simpa [writeAt, getAt] using ih k

theorem getAt_writeAt_ne : ∀ (l : List (Option ToolAcc)) (n m : Nat) (a : ToolAcc),
    n ≠ m → getAt (writeAt l n a) m = getAt l m := by
  intro l
  induction l with
  | nil =>
    intro n
    induction n with
    | zero =>
      intro m a h
      cases m with
      | zero => exact absurd rfl h
      | succ j => rfl
    | succ k ih =>
      intro m a h
      cases m with
      | zero => rfl
      | succ j =>
        have hkj : k ≠ j := fun hk => h (by rw [hk])
        simpa [writeAt, getAt] using ih j a hkj
  | cons x rest ih =>
    intro n m a h
    cases n with
    | zero =>
      cases m with
      | zero => exact absurd rfl h
      | succ j => rfl
    | succ k =>
      cases m with
      | zero => rfl
      | succ j =>
        have hkj : k ≠ j := fun hk => h (by rw [hk])
        simpa [writeAt, getAt] using ih k j a hkj

theorem length_writeAt (l : List (Option ToolAcc)) (n : Nat) (a : ToolAcc) :
    (writeAt l n a).length = max l.length (n + 1) := by
  induction l generalizing n with
  | nil =>
    induction n with
    | zero => rfl
    | succ k ih => simp [writeAt, ih]
  | cons x rest ih =>
    cases n with
    | zero => simp [writeAt]
    | succ k => simp [writeAt, ih k, Nat.succ_max_succ]

theorem content_writeSlot (m : MergedMessage) (k : Nat ⊕ String) (a : ToolAcc) :
    (writeSlot m k a).content = m.content := by
  cases k <;> rfl

theorem slotAt_writeSlot_inl (m : MergedMessage) (n i : Nat) (a : ToolAcc) :
    slotAt (writeSlot m (Sum.inl n) a) i = if n = i then some a else slotAt m i := by
  by_cases h : n = i
  · subst h
    simp [slotAt, writeSlot, getAt_writeAt_self]
  · simp [slotAt, writeSlot, getAt_writeAt_ne _ _ _ _ h, h]

theorem slotAt_writeSlot_inr (m : MergedMessage) (s : String) (i : Nat) (a : ToolAcc) :
    slotAt (writeSlot m (Sum.inr s) a) i = slotAt m i := rfl

theorem length_writeSlot_inl (m : MergedMessage) (n : Nat) (a : ToolAcc) :
    (writeSlot m (Sum.inl n) a).tool_calls.length = max m.tool_calls.length (n + 1) := by
  simp [writeSlot, length_writeAt]

theorem accFold_append (s : Option ToolAcc) (a b : List SToolCall) :
    accFold (accFold s a) b = accFold s (a ++ b) := by
  simp [accFold, List.foldl_append]

theorem content_applyToolCallS (m : MergedMessage) (t : SToolCall) :
    (applyToolCallS m t).content = m.content := by
  simp [applyToolCallS, content_writeSlot]

theorem content_foldl_applyToolCallS (ts : List SToolCall) (m : MergedMessage) :
    (ts.foldl applyToolCallS m).content = m.content := by
  induction ts generalizing m with
  | nil => rfl
  | cons t rest ih => rw [List.foldl_cons, ih, content_applyToolCallS]

theorem slotAt_applyToolCallS (m : MergedMessage) (t : SToolCall) (i : Nat) :
    slotAt (applyToolCallS m t) i =
      if t.index = i then some (updAcc ((slotAt m i).getD freshAcc) t) else slotAt m i := by
  have hs : getSlot m (Sum.inl t.index) = slotAt m t.index := rfl
  by_cases h : t.index = i
  · subst h
    simp [applyToolCallS, slotAt_writeSlot_inl, hs]
  · simp [applyToolCallS, slotAt_writeSlot_inl, h]

theorem slotAt_foldl_applyToolCallS (ts : List SToolCall) (m : MergedMessage) (i : Nat) :
    slotAt (ts.foldl applyToolCallS m) i =
      accFold (slotAt m i) (ts.filter (fun t => t.index == i)) := by
  induction ts generalizing m with
  | nil => rfl
  | cons t rest ih =>
    rw [List.foldl_cons, ih]
    by_cases h : t.index = i
    · have hf : List.filter (fun t => t.index == i) (t :: rest)
          = t :: List.filter (fun t => t.index == i) rest := by
        simp [List.filter_cons, h]
      rw [slotAt_applyToolCallS, if_pos h, hf]
      rfl
    · have hf : List.filter (fun t => t.index == i) (t :: rest)
          = List.filter (fun t => t.index == i) rest := by
        simp [List.filter_cons, h]
      rw [slotAt_applyToolCallS, if_neg h, hf]

theorem length_foldl_applyToolCallS (ts : List SToolCall) (m : MergedMessage) :
    (ts.foldl applyToolCallS m).tool_calls.length =
      foldMaxL m.tool_calls.length (ts.map (fun t => t.index)) := by
  induction ts generalizing m with
  | nil => rfl
  | cons t rest ih =>
    rw [List.foldl_cons, ih]
    have : (applyToolCallS m t).tool_calls.length = max m.tool_calls.length (t.index + 1) := by
      simp [applyToolCallS, length_writeSlot_inl]
    rw [this]
    rfl

/-!
Lifting the three per-slot facts from one chunk step to the whole
merge.
-/
theorem content_stepS (m : MergedMessage) (c : SChunk) :
    (stepS m c).content = m.content ++ refContent c := by
  simp [stepS, content_foldl_applyToolCallS, refContent]

theorem slotAt_stepS (m : MergedMessage) (c : SChunk) (i : Nat) :
    slotAt (stepS m c) i = accFold (slotAt m i) ((refTCs c).filter (fun t => t.index == i)) := by
  have h : slotAt { m with content := m.content ++ (c.delta0).content.getD "" } i = slotAt m i := rfl
  simp [stepS, slotAt_foldl_applyToolCallS, refTCs, h]

theorem length_stepS (m : MergedMessage) (c : SChunk) :
    (stepS m c).tool_calls.length =
      foldMaxL m.tool_calls.length ((refTCs c).map (fun t => t.index)) := by
  simp [stepS, length_foldl_applyToolCallS, refTCs]

theorem content_foldl_stepS (chunks : List SChunk) (m : MergedMessage) :
    (chunks.foldl stepS m).content = m.content ++ strConcat (chunks.map refContent) := by
  induction chunks generalizing m with
  | nil => simp [strConcat, strAppendEmpty]
  | cons c rest ih =>
    rw [List.foldl_cons, ih, content_stepS]
    simp [strConcat, strAppendAssoc]

theorem slotAt_foldl_stepS (chunks : List SChunk) (m : MergedMessage) (i : Nat) :
    slotAt (chunks.foldl stepS m) i = accFold (slotAt m i)
      ((allTCs chunks).filter (fun t => t.index == i)) := by
  induction chunks generalizing m with
  | nil => rfl
  | cons c rest ih =>
    rw [List.foldl_cons, ih, slotAt_stepS, accFold_append]
    have : allTCs (c :: rest) = refTCs c ++ allTCs rest := by
      simp [allTCs]
    rw [this, List.filter_append]

theorem length_foldl_stepS (chunks : List SChunk) (m : MergedMessage) :
    (chunks.foldl stepS m).tool_calls.length =
      foldMaxL m.tool_calls.length ((allTCs chunks).map (fun t => t.index)) := by
  induction chunks generalizing m with
  | nil => rfl
  | cons c rest ih =>
    rw [List.foldl_cons, ih, length_stepS]
    have : allTCs (c :: rest) = refTCs c ++ allTCs rest := by
      simp [allTCs]
    rw [this, List.map_append]
    simp [foldMaxL, List.foldl_append]

/-!
Closed forms: a slot's final value is the reference reduction of its
fragments, and the array length is the largest written index plus one.
-/
theorem accFold_some (ts : List SToolCall) (a : ToolAcc) :
    accFold (some a) ts = some (ts.foldl updAcc a) := by
  induction ts generalizing a with
  | nil => rfl
  | cons t rest ih => simpa [accFold, List.foldl_cons] using ih (updAcc a t)

theorem foldl_updAcc_closed (ts : List SToolCall) :
    ∀ (a : ToolAcc) (k : Int), a.index = JsAtom.num k →
    ts.foldl updAcc a =
      { name := a.name ++ strConcat (ts.map (fun t => t.name.getD ""))
        arguments := a.arguments ++ strConcat (ts.map (fun t => t.arguments.getD ""))
        index := JsAtom.num (k + intSum (ts.map (fun t => Int.ofNat t.index)))
        id := a.id ++ strConcat (ts.map (fun t => t.id.getD "")) } := by
  induction ts with
  | nil =>
    intro a k h
    cases a with
    | mk nm ar ix idf =>
      simp only at h
      simp [strConcat, intSum, strAppendEmpty, h]
  | cons t rest ih =>
    intro a k h
    rw [List.foldl_cons]
    have hidx : (updAcc a t).index = JsAtom.num (k + Int.ofNat t.index) := by
      simp [updAcc, h, atomPlus]
    rw [ih (updAcc a t) (k + Int.ofNat t.index) hidx]
    simp [updAcc, strConcat, intSum, strAppendAssoc, Int.add_assoc]

theorem accFold_none_closed (t : SToolCall) (rest : List SToolCall) :
    accFold none (t :: rest) = some (refSlot (t :: rest)) := by
  have h1 : accFold none (t :: rest) = accFold (some (updAcc freshAcc t)) rest := rfl
  rw [h1, accFold_some]
  have hidx : (updAcc freshAcc t).index = JsAtom.num (0 + Int.ofNat t.index) := rfl
  rw [foldl_updAcc_closed rest (updAcc freshAcc t) (0 + Int.ofNat t.index) hidx]
  simp [refSlot, updAcc, freshAcc, strConcat, intSum, strEmptyAppend, strAppendAssoc,
        Int.add_assoc, Int.zero_add]

theorem foldMaxL_eq (l : List Nat) : ∀ n : Nat,
    foldMaxL n l = max n (maxNat (l.map (fun x => x + 1))) := by
  induction l with
  | nil => intro n; simp [foldMaxL, maxNat]
  | cons x rest ih =>
    intro n
    have h1 : foldMaxL n (x :: rest) = foldMaxL (max n (x + 1)) rest := rfl
    rw [h1, ih]
    simp [maxNat, Nat.max_assoc]

theorem maxNat_succ_map (l : List Nat) (h : l ≠ []) :
    maxNat (l.map (fun x => x + 1)) = maxNat l + 1 := by
  induction l with
  | nil => exact absurd rfl h
  | cons x rest ih =>
    cases rest with
    | nil => simp [maxNat]
    | cons y r =>
      have hne : y :: r ≠ [] := by simp
      have h1 : maxNat (List.map (fun x => x + 1) (x :: y :: r))
          = max (x + 1) (maxNat (List.map (fun x => x + 1) (y :: r))) := rfl
      have h2 : maxNat (x :: y :: r) = max x (maxNat (y :: r)) := rfl
      rw [h1, ih hne, h2, Nat.succ_max_succ]

theorem filterIdxNil (i : Nat) : ∀ ts : List SToolCall,
    (∀ t ∈ ts, t.index ≠ i) → ts.filter (fun t => t.index == i) = [] := by
  intro ts
  induction ts with
  | nil => intro _; rfl
  | cons t rest ih =>
    intro h
    have ht : t.index ≠ i := h t (by simp)
    have hrest : ∀ t ∈ rest, t.index ≠ i := fun u hu => h u (by simp [hu])
    simp [List.filter_cons, ht, ih hrest]

/-!
Simulation: on chunks of the structured OpenAI shape the JSON-level
merger never throws and computes exactly the structured fold.
-/
theorem applyToolCall_toJson (m : MergedMessage) (t : SToolCall) :
    applyToolCall m (SToolCall.toJson t) = Except.ok (applyToolCallS m t) := by
  obtain ⟨i, nm, ar, idf⟩ := t
  cases nm <;> cases ar <;> cases idf <;> rfl

theorem applyToolCalls_map (l : List SToolCall) : ∀ m : MergedMessage,
    applyToolCalls m (l.map SToolCall.toJson) = Except.ok (l.foldl applyToolCallS m) := by
  induction l with
  | nil => intro m; rfl
  | cons t rest ih =>
    intro m
    have h := applyToolCall_toJson m t
    simp [applyToolCalls, h, ih (applyToolCallS m t)]

theorem mergeStep_toJson (m : MergedMessage) (c : SChunk) :
    mergeStep m (SChunk.toJson c) = Except.ok (stepS m c) := by
  obtain ⟨choices⟩ := c
  cases choices with
  | nil => rfl
  | cons ch rest =>
    obtain ⟨delta⟩ := ch
    cases delta with
    | none => rfl
    | some d =>
      obtain ⟨cont, tcs⟩ := d
      cases cont <;> cases tcs <;> first
        | rfl
        | exact applyToolCalls_map _ _

theorem mergeChunksFrom_map (chunks : List SChunk) : ∀ m : MergedMessage,
    mergeChunksFrom m (chunks.map SChunk.toJson) = Except.ok (chunks.foldl stepS m) := by
  induction chunks with
  | nil => intro m; rfl
  | cons c rest ih =>
    intro m
    have h := mergeStep_toJson m c
    simp [mergeChunksFrom, h, ih (stepS m c)]

theorem merge_toJson (chunks : List SChunk) :
    mergeOpenAIChunks (chunks.map SChunk.toJson) = Except.ok (mergeS chunks) :=
  mergeChunksFrom_map chunks emptyMessage

/-!
Totality of the merger on the safe domain.
-/
theorem jsGetField_ok (v : Json) (h : v ≠ Json.null) (k : String) :
    jsGetField v k = Except.ok (jsGetF v k) := by
  cases v with
  | null => exact absurd rfl h
  | bool b => rfl
  | num n => rfl
  | str s => rfl
  | arr l => rfl
  | obj f => rfl

theorem jsIndexZero_ok (v : Json) (h : v ≠ Json.null) :
    jsIndexZero (some v) = Except.ok (jsIndexZeroOk v) := by
  cases v with
  | null => exact absurd rfl h
  | bool b => rfl
  | num n => rfl
  | str s => rfl
  | arr l => rfl
  | obj f => rfl

theorem jsGetF_null (k : String) : jsGetF Json.null k = none := rfl

theorem applyToolCall_safe (tc : Json) (h : safeToolCall tc = true) (m : MergedMessage) :
    exceptOk (applyToolCall m tc) = true := by
  cases hf : jsGetF tc "function" with
  | none => simp [safeToolCall, hf] at h
  | some f =>
    have htc : tc ≠ Json.null := by
      intro he
      rw [he, jsGetF_null] at hf
      exact Option.noConfusion hf
    have hfne : f ≠ Json.null := by
      intro he
      subst he
      simp [safeToolCall, hf] at h
    simp [applyToolCall, jsGetField_ok tc htc, hf, jsGetFieldO, jsGetField_ok f hfne, exceptOk]

theorem applyToolCalls_safe : ∀ (tcs : List Json) (m : MergedMessage),
    (∀ tc ∈ tcs, safeToolCall tc = true) → exceptOk (applyToolCalls m tcs) = true := by
  intro tcs
  induction tcs with
  | nil => intro m _; rfl
  | cons tc rest ih =>
    intro m h
    have h1 := applyToolCall_safe tc (h tc (by simp)) m
    cases happ : applyToolCall m tc with
    | error e => rw [happ] at h1; exact absurd h1 (by simp [exceptOk])
    | ok m' =>
      have hrest : ∀ tc ∈ rest, safeToolCall tc = true := fun u hu => h u (by simp [hu])
      simpa [applyToolCalls, happ] using ih m' hrest

theorem mergeStep_safe (c : Json) (h : safeChunk c = true) (m : MergedMessage) :
    exceptOk (mergeStep m c) = true := by
  cases hch : jsGetF c "choices" with
  | none => simp [safeChunk, hch] at h
  | some v =>
    have hcne : c ≠ Json.null := by
      intro he
      rw [he, jsGetF_null] at hch
      exact Option.noConfusion hch
    have hvne : v ≠ Json.null := by
      intro he
      subst he
      simp [safeChunk, hch] at h
    have hsd : safeDelta (deltaView v) = true := by
      cases v with
      | null => exact absurd rfl hvne
      | bool b => simpa [safeChunk, hch] using h
      | num n => simpa [safeChunk, hch] using h
      | str s => simpa [safeChunk, hch] using h
      | arr l => simpa [safeChunk, hch] using h
      | obj f => simpa [safeChunk, hch] using h
    simp only [mergeStep, jsGetField_ok c hcne, hch, jsIndexZero_ok v hvne]
    cases htc : jsGetF (orEmptyObj (optChain (jsIndexZeroOk v) "delta")) "tool_calls" with
    | none => simp [htc, exceptOk]
    | some tv =>
      have hsd' : safeDelta (deltaView v)
          = (match some tv with
             | none => true
             | some Json.null => true
             | some (Json.arr tcs) => tcs.all safeToolCall
             | some _ => false) := by
        rw [safeDelta, deltaView, htc]
      cases tv with
      | null => simp [htc, exceptOk]
      | arr tcs =>
        rw [hsd'] at hsd
        simp only [htc]
        exact applyToolCalls_safe tcs _ (by simpa [List.all_eq_true] using hsd)
      | bool b => rw [hsd'] at hsd; exact absurd hsd (by simp)
      | num n => rw [hsd'] at hsd; exact absurd hsd (by simp)
      | str s => rw [hsd'] at hsd; exact absurd hsd (by simp)
      | obj f => rw [hsd'] at hsd; exact absurd hsd (by simp)

theorem mergeChunksFrom_safe : ∀ (chunks : List Json) (m : MergedMessage),
    (∀ c ∈ chunks, safeChunk c = true) → exceptOk (mergeChunksFrom m chunks) = true := by
  intro chunks
  induction chunks with
  | nil => intro m _; rfl
  | cons c rest ih =>
    intro m h
    have h1 := mergeStep_safe c (h c (by simp)) m
    cases hst : mergeStep m c with
    | error e => rw [hst] at h1; exact absurd h1 (by simp [exceptOk])
    | ok m' =>
      have hrest : ∀ c ∈ rest, safeChunk c = true := fun u hu => h u (by simp [hu])
      simpa [mergeChunksFrom, hst] using ih m' hrest

/-!
The claims.
-/
/-- C8: for every response metadata and every buffer, when `options.raw`
is set `formatResponseBody` returns the input buffer verbatim,
regardless of the declared headers, of whether any `parse` succeeds on
anything, or of SSE framing; the result does not depend on the parse
function at all, so no parsing is attempted. -/
theorem c8_raw_short_circuit (parse : String → Option Json) (res : ResMeta)
    (buf : String) (tools : ToolsOpt) :
    formatResponseBody parse res buf { raw := true, tools := tools } = Except.ok buf := rfl

/-- C9: the merger is incremental — merging `[c1, c2, c3]` equals
merging `[c1, c2]` and then applying the per-chunk reduction step for
`c3` to the result. -/
theorem c9_merge_incremental (c1 c2 c3 : Json) :
    mergeOpenAIChunks [c1, c2, c3]
      = Except.bind (mergeOpenAIChunks [c1, c2]) (fun m => mergeStep m c3) := by
  cases h1 : mergeStep emptyMessage c1 with
  | error e => simp [mergeOpenAIChunks, mergeChunksFrom, h1, Except.bind]
  | ok m1 =>
    cases h2 : mergeStep m1 c2 with
    | error e => simp [mergeOpenAIChunks, mergeChunksFrom, h1, h2, Except.bind]
    | ok m2 =>
      cases h3 : mergeStep m2 c3 with
      | error e => simp [mergeOpenAIChunks, mergeChunksFrom, h1, h2, h3, Except.bind]
      | ok m3 => simp [mergeOpenAIChunks, mergeChunksFrom, h1, h2, h3, Except.bind]

/-- C2 (amended): the merger returns a `MergedMessage` for every
sequence of parsed chunk objects on which each chunk presents a
present, non-null `choices` value and the extracted delta's
`tool_calls` is absent, null, or an array of tool calls each bearing a
present non-null `function`; and a chunk whose delta is missing because
its `choices` array is empty is treated as an empty delta — it leaves
the accumulator unchanged.  (The unamended totality fails: a chunk with
no `choices` at all makes `chunk.choices[0]` throw, see the
counterexample.) -/
theorem c2_merge_total_on_safe :
    (∀ chunks : List Json, (∀ c ∈ chunks, safeChunk c = true) →
        exceptOk (mergeOpenAIChunks chunks) = true)
    ∧ (∀ m : MergedMessage,
        mergeStep m (Json.obj [("choices", Json.arr [])]) = Except.ok m) := by
  constructor
  · intro chunks h
    exact mergeChunksFrom_safe chunks emptyMessage h
  · intro m
    have h : mergeStep m (Json.obj [("choices", Json.arr [])])
        = Except.ok { m with content := m.content ++ "" } := rfl
    rw [h, strAppendEmpty]

/-- C2 witness: a concrete safe chunk (empty `choices` array) merges
without failing. -/
theorem c2_merge_total_on_safe_witness :
    safeChunk (Json.obj [("choices", Json.arr [])]) = true
    ∧ exceptOk (mergeOpenAIChunks [Json.obj [("choices", Json.arr [])]]) = true :=
  ⟨rfl, c2_merge_total_on_safe.1 [Json.obj [("choices", Json.arr [])]]
    (by intro c hc; rw [List.mem_singleton] at hc; subst hc; rfl)⟩

/-- C2 counterexample: on the parsed chunk `{}` — a chunk on which the
delta is missing because `choices` itself is absent — the merger throws
(`chunk.choices[0]` is a TypeError) instead of treating the chunk as an
empty delta. -/
theorem c2_merge_throws_on_missing_choices :
    exceptOk (mergeOpenAIChunks [Json.obj []]) = false := rfl

/-- C1 (amended): `formatResponseBody` returns a display string
whenever `options.raw` is set, or the response is not declared
streamed, or the streamed buffer has no `data:` line (the plain-chunked
branch); it is NOT exception-free in the remaining SSE branch — a
`data:` frame whose payload fails `JSON.parse` escapes as a thrown
SyntaxError (see the counterexample). -/
theorem c1_format_response_no_throw_cases (parse : String → Option Json) (res : ResMeta)
    (buf : String) (opts : CliOptions)
    (h : opts.raw = true ∨ isStreamedResponse res = false
         ∨ hasDataLine (splitTrimmedLines buf) = false) :
    exceptOk (formatResponseBody parse res buf opts) = true := by
  cases hb : opts.raw with
  | true => simp [formatResponseBody, hb, exceptOk]
  | false =>
    rcases h with h | h | h
    · rw [hb] at h
      exact Bool.noConfusion h
    · cases hp : parse buf with
      | some j => simp [formatResponseBody, hb, h, hp, exceptOk]
      | none => simp [formatResponseBody, hb, h, hp, exceptOk]
    · by_cases hs : isStreamedResponse res = true
      · simp [formatResponseBody, hb, hs, h, exceptOk]
      · have hs' : isStreamedResponse res = false := by
          cases hsv : isStreamedResponse res with
          | true => exact absurd hsv hs
          | false => rfl
        cases hp : parse buf with
        | some j => simp [formatResponseBody, hb, hs', hp, exceptOk]
        | none => simp [formatResponseBody, hb, hs', hp, exceptOk]

/-- C1 witness: raw mode on a buffer that would otherwise throw. -/
theorem c1_format_response_no_throw_cases_witness :
    (({ raw := true, tools := ToolsOpt.name } : CliOptions).raw = true)
    ∧ exceptOk (formatResponseBody exampleParse sseMeta "data: oops"
        { raw := true, tools := ToolsOpt.name }) = true :=
  ⟨rfl, c1_format_response_no_throw_cases exampleParse sseMeta "data: oops"
    { raw := true, tools := ToolsOpt.name } (Or.inl rfl)⟩

/-- C1 counterexample: declared `text/event-stream`, one SSE data frame
whose payload `oops` is not valid JSON — the formatter does not return
a display string; the `JSON.parse` SyntaxError escapes to the caller. -/
theorem c1_format_response_throws_on_bad_sse_frame :
    exceptOk (formatResponseBody exampleParse sseMeta "data: oops"
      { raw := false, tools := ToolsOpt.name }) = false := rfl

/-- C7 (amended): round-trip identity on non-JSON input holds for
`formatRequestBody` unconditionally and for `formatResponseBody` when
the response is not declared streamed; a streamed non-JSON buffer is
instead line-split and re-joined (see the counterexample). -/
theorem c7_nonjson_roundtrip_identity :
    (∀ (parse : String → Option Json) (res : ResMeta) (buf : String) (tools : ToolsOpt),
        parse buf = none → isStreamedResponse res = false →
        formatResponseBody parse res buf { raw := false, tools := tools } = Except.ok buf)
    ∧ (∀ (parse : String → Option Json) (buf : String) (opts : CliOptions),
        parse buf = none → formatRequestBody parse buf opts = buf) := by
  constructor
  · intro parse res buf tools hp hs
    simp [formatResponseBody, hs, hp]
  · intro parse buf opts hp
    simp [formatRequestBody, hp]

/-- C7 witness: a non-JSON buffer with non-streamed metadata round-trips
through both formatters. -/
theorem c7_nonjson_roundtrip_identity_witness :
    exampleParse "notjson" = none
    ∧ formatResponseBody exampleParse { contentType := some "application/json", transferEncoding := none }
        "notjson" { raw := false, tools := ToolsOpt.name } = Except.ok "notjson"
    ∧ formatRequestBody exampleParse "notjson" { raw := false, tools := ToolsOpt.name } = "notjson" :=
  ⟨rfl,
   c7_nonjson_roundtrip_identity.1 exampleParse
     { contentType := some "application/json", transferEncoding := none } "notjson" ToolsOpt.name rfl rfl,
   c7_nonjson_roundtrip_identity.2 exampleParse "notjson" { raw := false, tools := ToolsOpt.name } rfl⟩

/-- C7 counterexample: the buffer `"a\nb"` fails `JSON.parse`, yet with
declared `transfer-encoding: chunked` the response formatter returns
`"ab"`, not the buffer unchanged. -/
theorem c7_nonjson_roundtrip_identity_cex :
    exampleParse "a\nb" = none
    ∧ formatResponseBody exampleParse chunkedMeta "a\nb"
        { raw := false, tools := ToolsOpt.name } = Except.ok "ab"
    ∧ ("ab" : String) ≠ "a\nb" :=
  ⟨rfl, rfl, by decide⟩

/-- C3: on chunk sequences of the OpenAI shape the merger computes the
reference reduction — it succeeds, its `content` is the in-order
concatenation of the per-chunk `delta.content ?? ''`, and for every
index `i` with at least one fragment, the slot at `tool_calls[i]` holds
exactly the in-order concatenations of the `name`, `arguments` and `id`
fragments addressed to `i`, with its `index` field the SUM of the
`index` values of those fragments (the additive update), all grown from
the lazily created empty seed. -/
theorem c3_merge_reference_reduction (chunks : List SChunk) :
    mergeOpenAIChunks (chunks.map SChunk.toJson) = Except.ok (mergeS chunks)
    ∧ (mergeS chunks).content = strConcat (chunks.map refContent)
    ∧ (∀ i : Nat, fragsAt chunks i ≠ [] →
        slotAt (mergeS chunks) i = some (refSlot (fragsAt chunks i))) := by
  refine ⟨merge_toJson chunks, ?_, ?_⟩
  · have h := content_foldl_stepS chunks emptyMessage
    have h0 : emptyMessage.content = "" := rfl
    rw [h0, strEmptyAppend] at h
    exact h
  · intro i hne
    have h1 := slotAt_foldl_stepS chunks emptyMessage i
    have h0 : slotAt emptyMessage i = none := rfl
    rw [h0] at h1
    have h2 : slotAt (mergeS chunks) i = accFold none (fragsAt chunks i) := h1
    cases hf : fragsAt chunks i with
    | nil => exact absurd hf hne
    | cons t rest =>
      rw [h2, hf, accFold_none_closed]

/-- C3 witness: two chunks each contributing a fragment to slot 1; the
slot concatenates `name`/`arguments`/`id` and sums the indexes. -/
theorem c3_merge_reference_reduction_witness :
    fragsAt [cChunkA, cChunkB] 1 ≠ []
    ∧ slotAt (mergeS [cChunkA, cChunkB]) 1 = some (refSlot (fragsAt [cChunkA, cChunkB] 1)) :=
  ⟨by decide, (c3_merge_reference_reduction [cChunkA, cChunkB]).2.2 1 (by decide)⟩

/-- C10: tool-call slots are addressed positionally, never compacted —
whenever at least one fragment was seen, the merged `tool_calls` array
has length (largest seen index) + 1 and every position whose index was
never seen holds an unfilled (hole) entry. -/
theorem c10_merge_sparse_slots (chunks : List SChunk)
    (hne : (allTCs chunks).map (fun t => t.index) ≠ []) :
    mergeOpenAIChunks (chunks.map SChunk.toJson) = Except.ok (mergeS chunks)
    ∧ (mergeS chunks).tool_calls.length
        = maxNat ((allTCs chunks).map (fun t => t.index)) + 1
    ∧ (∀ i : Nat, i ∉ (allTCs chunks).map (fun t => t.index) →
        slotAt (mergeS chunks) i = none) := by
  refine ⟨merge_toJson chunks, ?_, ?_⟩
  · have h := length_foldl_stepS chunks emptyMessage
    have h0 : emptyMessage.tool_calls.length = 0 := rfl
    rw [h0] at h
    have h1 : ((allTCs chunks).map (fun t => t.index)).foldl (fun n i => max n (i + 1)) 0
        = foldMaxL 0 ((allTCs chunks).map (fun t => t.index)) := rfl
    have h2 : (allTCs chunks).foldl (fun n t => max n (t.index + 1)) 0
        = ((allTCs chunks).map (fun t => t.index)).foldl (fun n i => max n (i + 1)) 0 := by
      rw [List.foldl_map]
    have h3 : foldMaxL 0 ((allTCs chunks).map (fun t => t.index))
        = maxNat ((allTCs chunks).map (fun t => t.index)) + 1 := by
      rw [foldMaxL_eq, maxNat_succ_map _ hne, Nat.zero_max]
    calc (mergeS chunks).tool_calls.length
        = foldMaxL 0 ((allTCs chunks).map (fun t => t.index)) := h
      _ = maxNat ((allTCs chunks).map (fun t => t.index)) + 1 := h3
  · intro i hi
    have h1 := slotAt_foldl_stepS chunks emptyMessage i
    have h0 : slotAt emptyMessage i = none := rfl
    rw [h0] at h1
    have hnil : (allTCs chunks).filter (fun t => t.index == i) = [] := by
      apply filterIdxNil
      intro t ht he
      exact hi (he ▸ List.mem_map_of_mem (fun t => t.index) ht)
    rw [hnil] at h1
    exact h1

/-- C10 witness: a single fragment addressed to slot 1 and none to slot
0 — the array has length 2 with a hole at position 0. -/
theorem c10_merge_sparse_slots_witness :
    (allTCs [cChunkB]).map (fun t => t.index) ≠ []
    ∧ (mergeS [cChunkB]).tool_calls.length
        = maxNat ((allTCs [cChunkB]).map (fun t => t.index)) + 1
    ∧ slotAt (mergeS [cChunkB]) 0 = none :=
  ⟨by decide, (c10_merge_sparse_slots [cChunkB] (by decide)).2.1,
   (c10_merge_sparse_slots [cChunkB] (by decide)).2.2 0 (by decide)⟩

theorem jsGetField_ok_inv (v : Json) (k : String) (x : Option Json)
    (h : jsGetField v k = Except.ok x) : jsGetF v k = x := by
  cases v with
  | null => exact Except.noConfusion h
  | bool b => exact Except.ok.inj h
  | num n => exact Except.ok.inj h
  | str s => exact Except.ok.inj h
  | arr l => exact Except.ok.inj h
  | obj f => exact Except.ok.inj h

theorem mapToolsToNames_ok (parsed p' : Json) (h : mapToolsToNames parsed = Except.ok p') :
    ∃ l, jsGetF parsed "tools" = some (Json.arr l) := by
  rw [mapToolsToNames] at h
  cases hj : jsGetField parsed "tools" with
  | error e => rw [hj] at h; exact Except.noConfusion h
  | ok tv =>
    rw [hj] at h
    cases tv with
    | none => exact Except.noConfusion h
    | some vv =>
      cases vv with
      | arr l => exact ⟨l, jsGetField_ok_inv parsed "tools" (some (Json.arr l)) hj⟩
      | null => exact Except.noConfusion h
      | bool b => exact Except.noConfusion h
      | num n => exact Except.noConfusion h
      | str s => exact Except.noConfusion h
      | obj f => exact Except.noConfusion h

theorem mapToolNames_ok_length : ∀ (tools names : List Json),
    mapToolNames tools = Except.ok names → names.length = tools.length := by
  intro tools
  induction tools with
  | nil =>
    intro names h
    cases h
    rfl
  | cons t ts ih =>
    intro names h
    rw [mapToolNames] at h
    cases hf : toolFnName t with
    | error e => rw [hf] at h; exact Except.noConfusion h
    | ok n =>
      rw [hf] at h
      cases hr : mapToolNames ts with
      | error e => rw [hr] at h; exact Except.noConfusion h
      | ok ns =>
        rw [hr] at h
        cases h
        simp [ih ns hr]

theorem mapToolNames_ok_get : ∀ (tools names : List Json),
    mapToolNames tools = Except.ok names →
    ∀ (k : Nat) (h1 : k < tools.length) (h2 : k < names.length),
      toolFnName (tools.get ⟨k, h1⟩) = Except.ok (names.get ⟨k, h2⟩) := by
  intro tools
  induction tools with
  | nil =>
    intro names h k h1 h2
    exact absurd h1 (by simp)
  | cons t ts ih =>
    intro names h k h1 h2
    rw [mapToolNames] at h
    cases hf : toolFnName t with
    | error e => rw [hf] at h; exact Except.noConfusion h
    | ok n =>
      rw [hf] at h
      cases hr : mapToolNames ts with
      | error e => rw [hr] at h; exact Except.noConfusion h
      | ok ns =>
        rw [hr] at h
        cases h
        cases k with
        | zero => exact hf
        | succ j =>
          exact ih ns hr j (Nat.lt_of_succ_lt_succ h1) (Nat.lt_of_succ_lt_succ h2)

/-- C4: with `--tools name`, on a request body parsing to an object
whose `tools` field is an array on which every entry's `function.name`
extraction succeeds, the formatter replaces the `tools` array in place
by the array of the extracted `function.name` values — same array
length, entrywise the entry's `function.name`, every other field left
untouched; and when `tools` is absent or not an array the step does not
throw to the caller — the catch returns the raw buffer. -/
theorem c4_format_request_tools_name :
    (∀ (parse : String → Option Json) (raw : String) (fields : List (String × Json))
        (tools names : List Json),
        parse raw = some (Json.obj fields) →
        lookupKey fields "tools" = some (Json.arr tools) →
        mapToolNames tools = Except.ok names →
        formatRequestBody parse raw { raw := false, tools := ToolsOpt.name }
            = stringify (Json.obj (setFieldList fields "tools" (Json.arr names)))
        ∧ names.length = tools.length
        ∧ (∀ (k : Nat) (h1 : k < tools.length) (h2 : k < names.length),
            toolFnName (tools.get ⟨k, h1⟩) = Except.ok (names.get ⟨k, h2⟩)))
    ∧ (∀ (parse : String → Option Json) (raw : String) (parsed : Json),
        parse raw = some parsed →
        (∀ l : List Json, jsGetF parsed "tools" ≠ some (Json.arr l)) →
        formatRequestBody parse raw { raw := false, tools := ToolsOpt.name } = raw) := by
  constructor
  · intro parse raw fields tools names hp ht hn
    refine ⟨?_, mapToolNames_ok_length tools names hn, mapToolNames_ok_get tools names hn⟩
    have htv : jsGetField (Json.obj fields) "tools" = Except.ok (some (Json.arr tools)) := by
      rw [jsGetField_ok (Json.obj fields) (by intro hc; exact Json.noConfusion hc) "tools"]
      have : jsGetF (Json.obj fields) "tools" = lookupKey fields "tools" := rfl
      rw [this, ht]
    simp [formatRequestBody, hp, mapToolsToNames, htv, hn, setField]
  · intro parse raw parsed hp hno
    cases hm : mapToolsToNames parsed with
    | error e => simp [formatRequestBody, hp, hm]
    | ok p' =>
      exfalso
      obtain ⟨l, hl⟩ := mapToolsToNames_ok parsed p' hm
      exact hno l hl

/-- C4 witness: the concrete request body replaces its two-entry object
tool by the bare string name, leaves `model` untouched, and an absent
`tools` falls back to the raw buffer. -/
theorem c4_format_request_tools_name_witness :
    exampleParse "\x7b\"model\": \"gpt\", \"tools\": [\x7b\"type\": \"function\", \"function\": \x7b\"name\": \"getWeather\"\x7d\x7d]\x7d"
        = some (Json.obj reqFields)
    ∧ formatRequestBody exampleParse
        "\x7b\"model\": \"gpt\", \"tools\": [\x7b\"type\": \"function\", \"function\": \x7b\"name\": \"getWeather\"\x7d\x7d]\x7d"
        { raw := false, tools := ToolsOpt.name }
        = stringify (Json.obj (setFieldList reqFields "tools" (Json.arr [Json.str "getWeather"])))
    ∧ formatRequestBody exampleParse "\x7b\"message\": \x7b\x7d\x7d" { raw := false, tools := ToolsOpt.name }
        = "\x7b\"message\": \x7b\x7d\x7d" :=
  ⟨rfl,
   (c4_format_request_tools_name.1 exampleParse
     "\x7b\"model\": \"gpt\", \"tools\": [\x7b\"type\": \"function\", \"function\": \x7b\"name\": \"getWeather\"\x7d\x7d]\x7d"
     reqFields reqTools [Json.str "getWeather"] rfl rfl rfl).1,
   c4_format_request_tools_name.2 exampleParse "\x7b\"message\": \x7b\x7d\x7d"
     (Json.obj [("message", Json.obj [])]) rfl
     (by intro l hl; exact Option.noConfusion hl)⟩

/-- C5 (amended): for a streamed buffer with at least one `data:` line,
the formatter keeps exactly the `data:` lines other than the sentinel
`data: [DONE]`, parses each after slicing the 5-character prefix and
trimming, and classifies by any-match; when the classifier finds a
frame with `object === "chat.completion.chunk"` and truthy `choices`,
the result is the merger's outcome rendered pretty-printed — the
pretty-printed merged message whenever the merger succeeds, the
merger's thrown TypeError otherwise (see the counterexample) — and
when the classifier completes with no match the result is the
pretty-printed JSON array of all parsed frames. -/
theorem c5_format_response_sse_classification
    (parse : String → Option Json) (res : ResMeta) (buf : String) (tools : ToolsOpt)
    (frames : List Json)
    (hs : isStreamedResponse res = true)
    (hd : hasDataLine (splitTrimmedLines buf) = true)
    (hp : parseFrames parse (keptDataLines (splitTrimmedLines buf)) = Except.ok frames) :
    (someOpenAIChunk frames = Except.ok true →
        formatResponseBody parse res buf { raw := false, tools := tools }
          = Except.map (fun m => stringify (mergedToJson m)) (mergeOpenAIChunks frames))
    ∧ (someOpenAIChunk frames = Except.ok false →
        formatResponseBody parse res buf { raw := false, tools := tools }
          = Except.ok (stringify (Json.arr frames))) := by
  constructor
  · intro hc
    cases hm : mergeOpenAIChunks frames with
    | error e => simp [formatResponseBody, hs, hd, hp, hc, hm, Except.map]
    | ok m => simp [formatResponseBody, hs, hd, hp, hc, hm, Except.map]
  · intro hc
    simp [formatResponseBody, hs, hd, hp, hc]

/-- C5 witness: the spec's one-frame SSE example classifies as OpenAI
and renders the merger's outcome. -/
theorem c5_format_response_sse_classification_witness :
    parseFrames exampleParse (keptDataLines (splitTrimmedLines sseHelloBuf)) = Except.ok [chunkHelloJson]
    ∧ someOpenAIChunk [chunkHelloJson] = Except.ok true
    ∧ formatResponseBody exampleParse sseMeta sseHelloBuf { raw := false, tools := ToolsOpt.name }
        = Except.map (fun m => stringify (mergedToJson m)) (mergeOpenAIChunks [chunkHelloJson]) :=
  ⟨rfl, rfl,
   (c5_format_response_sse_classification exampleParse sseMeta sseHelloBuf ToolsOpt.name
     [chunkHelloJson] rfl rfl rfl).1 rfl⟩

/-- C5 counterexample: a conforming first frame classifies the sequence
as OpenAI (any-match holds), but the second frame `{}` makes the merger
throw, so no pretty-printed merged message is returned — the claim's
unconditional "returns the pretty-printed merged message" fails. -/
theorem c5_format_response_sse_classification_cex :
    parseFrames exampleParse (keptDataLines (splitTrimmedLines sseMixedBuf))
        = Except.ok [chunkHelloJson, Json.obj []]
    ∧ someOpenAIChunk [chunkHelloJson, Json.obj []] = Except.ok true
    ∧ exceptOk (formatResponseBody exampleParse sseMeta sseMixedBuf
        { raw := false, tools := ToolsOpt.name }) = false :=
  ⟨rfl, rfl, rfl⟩

/-- C6 (amended): for a streamed buffer with no `data:` line the result
is the separator-less concatenation of one fragment per trimmed line,
where a line that fails to parse, or parses to `null`, or parses to a
value whose `message` is absent or null (so `.content` throws and the
catch fires), contributes the raw line text; a line whose `message` is
a non-null value with a string `content` contributes that string; but a
line whose `message` is present with `content` absent contributes the
EMPTY string (the `undefined` is swallowed by `join`), not the raw line
text; the example input `line1\nline2\n...Hello...` yields
`line1line2Hello`. -/
theorem c6_format_response_plain_chunked
    (parse : String → Option Json) (res : ResMeta) (buf : String) (tools : ToolsOpt)
    (hs : isStreamedResponse res = true)
    (hd : hasDataLine (splitTrimmedLines buf) = false) :
    formatResponseBody parse res buf { raw := false, tools := tools }
        = Except.ok (String.join ((splitTrimmedLines buf).map (plainFragment parse)))
    ∧ (∀ line : String, parse line = none → plainFragment parse line = line)
    ∧ (∀ (line : String) (j : Json), parse line = some j →
        (j = Json.null ∨ jsGetF j "message" = none ∨ jsGetF j "message" = some Json.null) →
        plainFragment parse line = line)
    ∧ (∀ (line : String) (j mv : Json) (s : String), parse line = some j → j ≠ Json.null →
        jsGetF j "message" = some mv → mv ≠ Json.null →
        jsGetF mv "content" = some (Json.str s) →
        plainFragment parse line = s)
    ∧ (∀ (line : String) (j mv : Json), parse line = some j → j ≠ Json.null →
        jsGetF j "message" = some mv → mv ≠ Json.null →
        jsGetF mv "content" = none →
        plainFragment parse line = "") := by
  refine ⟨?_, ?_, ?_, ?_, ?_⟩
  · simp [formatResponseBody, hs, hd]
  · intro line h
    simp [plainFragment, h]
  · intro line j hp hcase
    rcases hcase with hjn | hnone | hnull
    · subst hjn
      simp [plainFragment, hp]
    · cases j <;> simp [plainFragment, hp, hnone]
    · cases j <;> simp [plainFragment, hp, hnull]
  · intro line j mv s hp hjne hm hmvne hc
    cases j with
    | null => exact absurd rfl hjne
    | bool b => cases mv <;> first
        | exact absurd rfl hmvne
        | simp [plainFragment, hp, hm, hc, jsToString]
    | num n => cases mv <;> first
        | exact absurd rfl hmvne
        | simp [plainFragment, hp, hm, hc, jsToString]
    | str t => cases mv <;> first
        | exact absurd rfl hmvne
        | simp [plainFragment, hp, hm, hc, jsToString]
    | arr l => cases mv <;> first
        | exact absurd rfl hmvne
        | simp [plainFragment, hp, hm, hc, jsToString]
    | obj f => cases mv <;> first
        | exact absurd rfl hmvne
        | simp [plainFragment, hp, hm, hc, jsToString]
  · intro line j mv hp hjne hm hmvne hc
    cases j with
    | null => exact absurd rfl hjne
    | bool b => cases mv <;> first
        | exact absurd rfl hmvne
        | simp [plainFragment, hp, hm, hc]
    | num n => cases mv <;> first
        | exact absurd rfl hmvne
        | simp [plainFragment, hp, hm, hc]
    | str t => cases mv <;> first
        | exact absurd rfl hmvne
        | simp [plainFragment, hp, hm, hc]
    | arr l => cases mv <;> first
        | exact absurd rfl hmvne
        | simp [plainFragment, hp, hm, hc]
    | obj f => cases mv <;> first
        | exact absurd rfl hmvne
        | simp [plainFragment, hp, hm, hc]

/-- C6 witness: the plain-chunked example of the spec evaluates to
`line1line2Hello`. -/
theorem c6_format_response_plain_chunked_witness :
    isStreamedResponse chunkedMeta = true
    ∧ hasDataLine (splitTrimmedLines plainBuf) = false
    ∧ formatResponseBody exampleParse chunkedMeta plainBuf { raw := false, tools := ToolsOpt.name }
        = Except.ok "line1line2Hello" :=
  ⟨rfl, rfl, by
    have h := (c6_format_response_plain_chunked exampleParse chunkedMeta plainBuf ToolsOpt.name rfl rfl).1
    rw [h]
    rfl⟩

/-- C6 counterexample: the line `{"message": {}}` parses, its `message`
is present but has no `content`, and the code yields `""`, not the raw
line text the claim requires. -/
theorem c6_format_response_plain_chunked_cex :
    exampleParse msgEmptyStr = some (Json.obj [("message", Json.obj [])])
    ∧ formatResponseBody exampleParse chunkedMeta msgEmptyStr
        { raw := false, tools := ToolsOpt.name } = Except.ok ""
    ∧ msgEmptyStr ≠ "" :=
  ⟨rfl, rfl, by decide⟩
